import Mathlib

/-!
# Verification of the synthetic OHLCV generator

Shallow embedding of `src/tools/gen_synthetic.py` (`generate_ohlcv`).

Modelling choices:
* Python floats are modelled as exact rationals (`ℚ`); the float literals
  `0.2` and `0.5` appearing as `volatility * 0.2` and `volatility * 0.5`
  are modelled as the exact rationals `2/10` and `5/10`.
* `random.gauss(mu, sigma)` returns `mu + sigma * z` where `z` is the
  standard-normal variate produced by the generator state at that call.
  We model the random source as a function `z : ℕ → ℚ` giving the standard
  draw consumed by the k-th `random.gauss` call of the run; each loop
  iteration `i` performs exactly four calls, in source order:
  `z (4*i)` for `daily_return`, `z (4*i+1)` for the open gap,
  `z (4*i+2)` for the intraday range, `z (4*i+3)` for the volume.
* Python `round(x, 2)` rounds to the nearest multiple of `1/100`, ties to
  even (`round2` below); Python `int(x)` truncates toward zero
  (`truncInt` below).
* `datetime(2020, 1, 1) + timedelta(days=i)` followed by
  `strftime("%Y-%m-%d")` is modelled by a Gregorian calendar stepper
  (`nextDay` / `addDays`) and a zero-padded renderer (`dateStr`).
-/

-- The Batteries rational-number operations are marked irreducible; make
-- them reducible again so that concrete runs of the generator can be
-- evaluated by `decide`.
unseal Rat.add Rat.mul Rat.inv Rat.sub

/-- A calendar date, proleptic Gregorian, as used by `datetime.date`. -/
structure Date where
  year : ℕ
  month : ℕ
  day : ℕ
deriving DecidableEq, Repr

/-- Gregorian leap-year rule (as in `calendar.isleap`). -/
def isLeapYear (y : ℕ) : Bool :=
  (y % 4 == 0 && y % 100 != 0) || y % 400 == 0

/-- Number of days in a month of a given year. -/
def daysInMonth (y m : ℕ) : ℕ :=
  if m = 2 then (if isLeapYear y then 29 else 28)
  else if m = 4 ∨ m = 6 ∨ m = 9 ∨ m = 11 then 30
  else 31

/-- Step a date forward by one calendar day (`timedelta(days=1)`). -/
def nextDay (d : Date) : Date :=
  if d.day < daysInMonth d.year d.month then ⟨d.year, d.month, d.day + 1⟩
  else if d.month < 12 then ⟨d.year, d.month + 1, 1⟩
  else ⟨d.year + 1, 1, 1⟩

/-- Step a date forward by `n` calendar days (`timedelta(days=n)`). -/
def addDays (d : Date) : ℕ → Date
  | 0 => d
  | n + 1 => nextDay (addDays d n)

/-- Strict lexicographic order on dates. -/
def Date.lt (a b : Date) : Prop :=
  a.year < b.year ∨ (a.year = b.year ∧
    (a.month < b.month ∨ (a.month = b.month ∧ a.day < b.day)))

instance (a b : Date) : Decidable (Date.lt a b) := by
  unfold Date.lt; infer_instance

/-- Zero-pad a number to two digits (as `%m`, `%d` in `strftime`). -/
def pad2 (n : ℕ) : String :=
  if n < 10 then "0" ++ toString n else toString n

/-- Zero-pad a number to four digits (as `%Y` in `strftime`). -/
def pad4 (n : ℕ) : String :=
  if n < 10 then "000" ++ toString n
  else if n < 100 then "00" ++ toString n
  else if n < 1000 then "0" ++ toString n
  else toString n

/-- `date.strftime("%Y-%m-%d")`. -/
def dateStr (d : Date) : String :=
  pad4 d.year ++ "-" ++ pad2 d.month ++ "-" ++ pad2 d.day

/-- `datetime(2020, 1, 1)`, the hard-coded `start_date` of the generator. -/
def startDate2020 : Date := ⟨2020, 1, 1⟩

/-- `random.gauss(mu, sigma)` evaluated at standard draw `zk`. -/
def gauss (mu sigma zk : ℚ) : ℚ := mu + sigma * zk

/-- Python `int()` on a real value: truncation toward zero. -/
def truncInt (q : ℚ) : ℤ :=
  if 0 ≤ q then ⌊q⌋ else ⌈q⌉

/-- Round to the nearest integer, ties to even (Python `round(x)`). -/
def rne (q : ℚ) : ℤ :=
  if q - ⌊q⌋ < 1/2 then ⌊q⌋
  else if 1/2 < q - ⌊q⌋ then ⌊q⌋ + 1
  else if ⌊q⌋ % 2 = 0 then ⌊q⌋ else ⌊q⌋ + 1

/-- Python `round(x, 2)`: round to the nearest multiple of 1/100. -/
def round2 (q : ℚ) : ℚ := (rne (q * 100) : ℚ) / 100

/-- One row of the generated data (one dict appended to `data`). -/
structure Bar where
  Date : String
  Open : ℚ
  High : ℚ
  Low : ℚ
  Close : ℚ
  AdjClose : ℚ
  Volume : ℤ
deriving DecidableEq, Repr

/-- `open_price = current_price * (1 + random.gauss(0, volatility * 0.2))`
at iteration `i` with carried price `current`. -/
def openU (volatility : ℚ) (z : ℕ → ℚ) (i : ℕ) (current : ℚ) : ℚ :=
  current * (1 + gauss 0 (volatility * (2/10)) (z (4 * i + 1)))

/-- `close_price = open_price * (1 + daily_return)` where
`daily_return = random.gauss(trend, volatility)`. -/
def closeU (volatility trend : ℚ) (z : ℕ → ℚ) (i : ℕ) (current : ℚ) : ℚ :=
  openU volatility z i current * (1 + gauss trend volatility (z (4 * i)))

/-- `intraday_range = abs(random.gauss(0, volatility * 0.5))`. -/
def rangeU (volatility : ℚ) (z : ℕ → ℚ) (i : ℕ) : ℚ :=
  |gauss 0 (volatility * (5/10)) (z (4 * i + 2))|

/-- `high_price = max(open_price, close_price) * (1 + intraday_range)`. -/
def highU (volatility trend : ℚ) (z : ℕ → ℚ) (i : ℕ) (current : ℚ) : ℚ :=
  max (openU volatility z i current) (closeU volatility trend z i current) *
    (1 + rangeU volatility z i)

/-- `low_price = min(open_price, close_price) * (1 - intraday_range)`. -/
def lowU (volatility trend : ℚ) (z : ℕ → ℚ) (i : ℕ) (current : ℚ) : ℚ :=
  min (openU volatility z i current) (closeU volatility trend z i current) *
    (1 - rangeU volatility z i)

/-- The dict appended to `data` at iteration `i` with carried price
`current`: all four prices rounded to 2 decimals, `Adj Close` a copy of
the rounded close, `Volume = max(int(gauss(1000000, 200000)), 100000)`. -/
def mkBar (volatility trend : ℚ) (z : ℕ → ℚ) (i : ℕ) (current : ℚ) : Bar :=
  { Date := dateStr (addDays startDate2020 i)
    Open := round2 (openU volatility z i current)
    High := round2 (highU volatility trend z i current)
    Low := round2 (lowU volatility trend z i current)
    Close := round2 (closeU volatility trend z i current)
    AdjClose := round2 (closeU volatility trend z i current)
    Volume := max (truncInt (gauss 1000000 200000 (z (4 * i + 3)))) 100000 }

/-- `current_price = close_price` at the end of iteration `i`: the carried
state is the unrounded close. -/
def nextPrice (volatility trend : ℚ) (z : ℕ → ℚ) (i : ℕ) (current : ℚ) : ℚ :=
  closeU volatility trend z i current

/-- The generation loop: `fuel` remaining iterations, next index `i`,
carried `current_price`. -/
def genAux (volatility trend : ℚ) (z : ℕ → ℚ) :
    ℕ → ℕ → ℚ → List Bar
  | 0, _, _ => []
  | fuel + 1, i, current =>
    mkBar volatility trend z i current ::
      genAux volatility trend z fuel (i + 1)
        (nextPrice volatility trend z i current)

/-- `generate_ohlcv(n_rows, start_price, volatility, trend)`: `n_rows` is a
Python `int`, and `for i in range(n_rows)` performs `max(n_rows, 0)`
iterations. -/
def generate_ohlcv (n_rows : ℤ := 10000) (start_price : ℚ := 100)
    (volatility : ℚ := 2/100) (trend : ℚ := 1/10000) (z : ℕ → ℚ) : List Bar :=
  genAux volatility trend z n_rows.toNat 0 start_price

/-- The carried `current_price` before iteration `i + k`, starting from
carried price `c` at iteration `i`. -/
def carried (volatility trend : ℚ) (z : ℕ → ℚ) : ℕ → ℚ → ℕ → ℚ
  | _, c, 0 => c
  | i, c, k + 1 =>
    carried volatility trend z (i + 1) (nextPrice volatility trend z i c) k

/-- The carried `current_price` of a full run, before iteration `k`. -/
def priceAt (start_price volatility trend : ℚ) (z : ℕ → ℚ) (k : ℕ) : ℚ :=
  carried volatility trend z 0 start_price k

/-- The all-zero draw stream (every `random.gauss` call returns its mean). -/
def zZero : ℕ → ℚ := fun _ => 0

/-- A draw stream whose open-gap draw at iteration 0 is `-2` standard
deviations and whose range draw is `1/5`: at `volatility = 5` the gap
factor is `1 + 5 * 0.2 * (-2) = -1`, i.e. the open is `-1` times the
carried price. -/
def zGapBelowMinusOne : ℕ → ℚ :=
  fun k => if k = 1 then -2 else if k = 2 then 1/5 else 0

/-- A draw stream whose range draw at iteration 0 is `2/5`: at
`volatility = 5` the intraday range is `|5 * 0.5 * (2/5)| = 1`, so the low
factor is `1 - 1 = 0`. -/
def zRangeOne : ℕ → ℚ := fun k => if k = 2 then 2/5 else 0

/-- A draw stream whose daily-return draw at iteration 0 is `1/100000`:
at `volatility = 1` the close becomes `100.001`, a value with more than
two decimal places. -/
def zTinyReturn : ℕ → ℚ := fun k => if k = 0 then 1/100000 else 0

/-- A draw stream equal to `zZero` on the first four draws only. -/
def zZeroThenOne : ℕ → ℚ := fun k => if k < 4 then 0 else 1

/-! ## Basic properties of the rounding helpers -/

theorem floor_le_rne (q : ℚ) : ⌊q⌋ ≤ rne q := by
  unfold rne; split_ifs <;> omega

theorem rne_le_floor_add_one (q : ℚ) : rne q ≤ ⌊q⌋ + 1 := by
  unfold rne; split_ifs <;> omega

theorem rne_mono {a b : ℚ} (h : a ≤ b) : rne a ≤ rne b := by
  have hfl : ⌊a⌋ ≤ ⌊b⌋ := Int.floor_mono h
  rcases eq_or_lt_of_le hfl with heq | hlt
  · have hfr : a - ⌊a⌋ ≤ b - ⌊b⌋ := by
      have hc : ((⌊a⌋ : ℚ)) = ((⌊b⌋ : ℚ)) := by exact_mod_cast heq
      linarith
    unfold rne
    split_ifs with h1 h2 h3 h4 h5 h6 h7 h8 h9 h10 h11 h12 h13 <;>
      first
        | omega
        | (exfalso; linarith)
  · have hstep : ⌊a⌋ + 1 ≤ ⌊b⌋ := hlt
    have h1 := rne_le_floor_add_one a
    have h2 := floor_le_rne b
    omega

theorem rne_nonneg {q : ℚ} (h : 0 ≤ q) : 0 ≤ rne q := by
  have h0 : (0 : ℤ) ≤ ⌊q⌋ := Int.floor_nonneg.mpr h
  exact le_trans h0 (floor_le_rne q)

theorem round2_mono {a b : ℚ} (h : a ≤ b) : round2 a ≤ round2 b := by
  unfold round2
  have h100 : a * 100 ≤ b * 100 := by linarith
  have := rne_mono h100
  have hc : ((rne (a * 100) : ℚ)) ≤ ((rne (b * 100) : ℚ)) := by exact_mod_cast this
  linarith

theorem round2_nonneg {q : ℚ} (h : 0 ≤ q) : 0 ≤ round2 q := by
  unfold round2
  have : (0 : ℤ) ≤ rne (q * 100) := rne_nonneg (by linarith)
  have hc : (0 : ℚ) ≤ ((rne (q * 100) : ℚ)) := by exact_mod_cast this
  linarith

/-! ## Structural lemmas about the generation loop -/

theorem genAux_length (v t : ℚ) (z : ℕ → ℚ) :
    ∀ (fuel i : ℕ) (c : ℚ), (genAux v t z fuel i c).length = fuel := by
  intro fuel
  induction fuel with
  | zero => intro i c; rfl
  | succ n ih => intro i c; simp [genAux, ih]

theorem generate_ohlcv_length (n : ℤ) (sp v t : ℚ) (z : ℕ → ℚ) :
    (generate_ohlcv n sp v t z).length = n.toNat :=
  genAux_length v t z n.toNat 0 sp

/-- Every element of the loop's output is `mkBar` at the right index with
the carried price threaded from the entry state. -/
theorem genAux_getElem? (v t : ℚ) (z : ℕ → ℚ) :
    ∀ (fuel j i : ℕ) (c : ℚ), j < fuel →
      (genAux v t z fuel i c)[j]? =
        some (mkBar v t z (i + j) (carried v t z i c j)) := by
  intro fuel
  induction fuel with
  | zero => intro j i c h; omega
  | succ n ih =>
    intro j i c h
    cases j with
    | zero => simp [genAux, carried]
    | succ m =>
      have hm : m < n := by omega
      simp only [genAux, List.getElem?_cons_succ]
      rw [ih m (i + 1) (nextPrice v t z i c) hm]
      have : i + 1 + m = i + (m + 1) := by omega
      rw [this]
      rfl

theorem genAux_mem (v t : ℚ) (z : ℕ → ℚ) :
    ∀ (fuel i : ℕ) (c : ℚ) (b : Bar), b ∈ genAux v t z fuel i c →
      ∃ j c', b = mkBar v t z j c' := by
  intro fuel
  induction fuel with
  | zero => intro i c b h; simp [genAux] at h
  | succ n ih =>
    intro i c b h
    simp only [genAux, List.mem_cons] at h
    rcases h with h | h
    · exact ⟨i, c, h⟩
    · exact ih (i + 1) (nextPrice v t z i c) b h

/-- Invariant-preservation principle for the generation loop. -/
theorem genAux_forall (v t : ℚ) (z : ℕ → ℚ) (P : Bar → Prop) (inv : ℚ → Prop)
    (hstep : ∀ i c, inv c →
      P (mkBar v t z i c) ∧ inv (nextPrice v t z i c)) :
    ∀ (fuel i : ℕ) (c : ℚ), inv c →
      ∀ b ∈ genAux v t z fuel i c, P b := by
  intro fuel
  induction fuel with
  | zero => intro i c _ b hb; simp [genAux] at hb
  | succ n ih =>
    intro i c hc b hb
    simp only [genAux, List.mem_cons] at hb
    rcases hb with hb | hb
    · exact hb ▸ (hstep i c hc).1
    · exact ih (i + 1) (nextPrice v t z i c) (hstep i c hc).2 b hb

/-- The carried price one step later is `nextPrice` of the carried price. -/
theorem carried_succ (v t : ℚ) (z : ℕ → ℚ) :
    ∀ (k i : ℕ) (c : ℚ),
      carried v t z i c (k + 1) =
        nextPrice v t z (i + k) (carried v t z i c k) := by
  intro k
  induction k with
  | zero => intro i c; simp [carried]
  | succ m ih =>
    intro i c
    show carried v t z (i + 1) (nextPrice v t z i c) (m + 1) = _
    rw [ih (i + 1) (nextPrice v t z i c)]
    have : i + 1 + m = i + (m + 1) := by omega
    rw [this]
    rfl

theorem priceAt_succ (sp v t : ℚ) (z : ℕ → ℚ) (k : ℕ) :
    priceAt sp v t z (k + 1) = nextPrice v t z k (priceAt sp v t z k) := by
  unfold priceAt
  rw [carried_succ]
  simp

/-- Each day's date is strictly later than the previous day's. -/
theorem Date.lt_nextDay (d : Date) : Date.lt d (nextDay d) := by
  unfold nextDay
  split_ifs with h1 h2 <;> simp [Date.lt]

/-! ## Claim C7: volume floor -/

/-- C7: for every produced bar and any draws, the volume field is an
integer at least the floor 100000 (hence positive and non-zero). -/
theorem generate_volume_floor (n : ℤ) (sp v t : ℚ) (z : ℕ → ℚ) :
    ∀ b ∈ generate_ohlcv n sp v t z, 100000 ≤ b.Volume := by
  intro b hb
  obtain ⟨j, c', rfl⟩ := genAux_mem v t z n.toNat 0 sp b hb
  simp only [mkBar]
  exact le_max_right _ _

/-- Witness for C7 at a concrete run of one bar with all-zero draws. -/
theorem generate_volume_floor_witness :
    100000 ≤ (mkBar (2/100) (1/10000) zZero 0 100).Volume :=
  generate_volume_floor 1 100 (2/100) (1/10000) zZero _ (by decide)

/-! ## Claim C8: adjusted close equals close -/

/-- C8: for every produced bar, the `Adj Close` field equals the `Close`
field (both are the 2-decimal rounding of the same close price), for any
parameters and any draws. -/
theorem generate_adjClose_eq_close (n : ℤ) (sp v t : ℚ) (z : ℕ → ℚ) :
    ∀ b ∈ generate_ohlcv n sp v t z, b.AdjClose = b.Close := by
  intro b hb
  obtain ⟨j, c', rfl⟩ := genAux_mem v t z n.toNat 0 sp b hb
  rfl

/-- Witness for C8 at a concrete run of one bar with all-zero draws. -/
theorem generate_adjClose_eq_close_witness :
    (mkBar (2/100) (1/10000) zZero 0 100).AdjClose =
      (mkBar (2/100) (1/10000) zZero 0 100).Close :=
  generate_adjClose_eq_close 1 100 (2/100) (1/10000) zZero _ (by decide)

/-! ## Claim C5: no boundary validation -/

/-- C5 (counterexample): a non-positive `start_price` is not rejected —
generation proceeds and emits a bar whose open price is the negative
start price, so no validation failure is surfaced before generation. -/
theorem generate_no_validation_cex :
    generate_ohlcv 1 (-100) (2/100) (1/10000) zZero ≠ [] ∧
    (generate_ohlcv 1 (-100) (2/100) (1/10000) zZero).map Bar.Open =
      [-100] := by
  decide

/-- C5 (amended): the generator performs no parameter validation and has
no failure path: it is total, always returns `max(n_rows, 0)` bars (so a
non-positive row count yields an empty sequence rather than an
`InvalidParameter` failure), and never partially generates and then
fails. -/
theorem generate_total_no_validation (n : ℤ) (sp v t : ℚ) (z : ℕ → ℚ) :
    (generate_ohlcv n sp v t z).length = n.toNat ∧
    (n ≤ 0 → generate_ohlcv n sp v t z = []) := by
  refine ⟨generate_ohlcv_length n sp v t z, fun hn => ?_⟩
  have h0 : n.toNat = 0 := Int.toNat_of_nonpos hn
  unfold generate_ohlcv
  rw [h0]
  rfl

/-- Witness for C5's amended theorem at `n_rows = -5`. -/
theorem generate_total_no_validation_witness :
    (generate_ohlcv (-5) (-100) (2/100) (1/10000) zZero).length =
      (-5 : ℤ).toNat ∧
    generate_ohlcv (-5) (-100) (2/100) (1/10000) zZero = [] :=
  ⟨(generate_total_no_validation (-5) (-100) (2/100) (1/10000) zZero).1,
   (generate_total_no_validation (-5) (-100) (2/100) (1/10000) zZero).2
     (by decide)⟩

/-! ## Claim C2: length and consecutive dates -/

/-- C2: for every non-negative integer `N`, a run with `row_count = N`
returns exactly `N` bars whose dates are `start_date + i` days for
`i = 0, …, N-1`, each day's date being obtained from the previous one by
stepping exactly one calendar day (strictly increasing, no gaps); in
particular `N = 0` yields the empty sequence, not an error. -/
theorem generate_length_and_dates (N : ℕ) (sp v t : ℚ) (z : ℕ → ℚ) :
    (generate_ohlcv (N : ℤ) sp v t z).length = N ∧
    (∀ i, i < N →
      ((generate_ohlcv (N : ℤ) sp v t z)[i]?).map Bar.Date =
        some (dateStr (addDays startDate2020 i))) ∧
    (∀ i, addDays startDate2020 (i + 1) = nextDay (addDays startDate2020 i) ∧
      Date.lt (addDays startDate2020 i) (addDays startDate2020 (i + 1))) := by
  refine ⟨?_, ?_, ?_⟩
  · rw [generate_ohlcv_length, Int.toNat_natCast]
  · intro i hi
    unfold generate_ohlcv
    rw [Int.toNat_natCast]
    rw [genAux_getElem? v t z N i 0 sp hi]
    simp [mkBar]
  · intro i
    exact ⟨rfl, Date.lt_nextDay (addDays startDate2020 i)⟩

/-- Witness for C2: a two-bar run has length 2 and its second bar is
dated 2020-01-02. -/
theorem generate_length_and_dates_witness :
    (generate_ohlcv ((2 : ℕ) : ℤ) 100 (2/100) (1/10000) zZero).length = 2 ∧
    ((generate_ohlcv ((2 : ℕ) : ℤ) 100 (2/100) (1/10000) zZero)[1]?).map
      Bar.Date = some "2020-01-02" := by
  refine ⟨(generate_length_and_dates 2 100 (2/100) (1/10000) zZero).1, ?_⟩
  have h := (generate_length_and_dates 2 100 (2/100) (1/10000) zZero).2.1 1
    (by decide)
  rw [h]
  decide

/-! ## Claim C10: the start date is hard-coded -/

/-- C10: the generator exposes no start-date parameter — for every choice
of `n_rows`, `start_price`, `volatility`, `trend` and every draw stream,
bar `i` is dated `2020-01-01 + i` days; in particular the first bar is
dated exactly `2020-01-01`. -/
theorem generate_dates_fixed_start (n : ℤ) (sp v t : ℚ) (z : ℕ → ℚ) :
    dateStr startDate2020 = "2020-01-01" ∧
    ∀ i, i < n.toNat →
      ((generate_ohlcv n sp v t z)[i]?).map Bar.Date =
        some (dateStr (addDays startDate2020 i)) := by
  refine ⟨by decide, fun i hi => ?_⟩
  unfold generate_ohlcv
  rw [genAux_getElem? v t z n.toNat i 0 sp hi]
  simp [mkBar]

/-- Witness for C10 at a one-bar run with non-default parameters: the
first bar is dated 2020-01-01. -/
theorem generate_dates_fixed_start_witness :
    ((generate_ohlcv 1 250 (3/2) (1/2) zZeroThenOne)[0]?).map Bar.Date =
      some (dateStr (addDays startDate2020 0)) :=
  (generate_dates_fixed_start 1 250 (3/2) (1/2) zZeroThenOne).2 0 (by decide)

/-! ## Claim C1: ordering invariant low ≤ open, close ≤ high -/

/-- C1 (counterexample): at `volatility = 5` a gap draw of `-2` standard
deviations makes the open factor `1 + 5·0.2·(-2) = -1`, so open and close
are `-100`; a range draw then yields `high = -150 < low = -50`, violating
`low ≤ open` and producing `high < low`. -/
theorem generate_ordering_cex :
    (¬ ∀ b ∈ generate_ohlcv 1 100 5 0 zGapBelowMinusOne,
      b.Low ≤ b.Open ∧ b.Open ≤ b.High ∧
        b.Low ≤ b.Close ∧ b.Close ≤ b.High) ∧
    (generate_ohlcv 1 100 5 0 zGapBelowMinusOne).map
      (fun b => (b.Low, b.Open, b.High, b.Close)) =
        [(-50, -100, -150, -100)] := by
  decide

/-- C1 (amended): the ordering invariant
`low ≤ open ≤ high` and `low ≤ close ≤ high` holds for every produced bar
provided the draws keep the prices non-negative: whenever the start price
is non-negative and every open-gap noise and every daily return is at
least `-1` (which makes every multiplicative price factor non-negative),
the rounded prices of every bar are correctly ordered — and in particular
`high < low` cannot occur. Without that restriction a gap draw below `-1`
(reachable at volatility 5.0) makes the prices negative and the bounding
transforms invert. -/
theorem generate_ordering_of_nonneg_draws (n : ℤ) (sp v t : ℚ) (z : ℕ → ℚ)
    (hsp : 0 ≤ sp)
    (hgap : ∀ i, -1 ≤ gauss 0 (v * (2/10)) (z (4 * i + 1)))
    (hret : ∀ i, -1 ≤ gauss t v (z (4 * i))) :
    ∀ b ∈ generate_ohlcv n sp v t z,
      b.Low ≤ b.Open ∧ b.Open ≤ b.High ∧
        b.Low ≤ b.Close ∧ b.Close ≤ b.High := by
  refine genAux_forall v t z _ (fun c => 0 ≤ c) ?_ n.toNat 0 sp hsp
  intro i c hc
  have hopen : 0 ≤ openU v z i c := mul_nonneg hc (by linarith [hgap i])
  have hclose : 0 ≤ closeU v t z i c :=
    mul_nonneg hopen (by linarith [hret i])
  have hrange : 0 ≤ rangeU v z i := abs_nonneg _
  have hminpos : 0 ≤ min (openU v z i c) (closeU v t z i c) :=
    le_min hopen hclose
  have hmaxpos : 0 ≤ max (openU v z i c) (closeU v t z i c) :=
    le_trans hopen (le_max_left _ _)
  have hlow : lowU v t z i c ≤ min (openU v z i c) (closeU v t z i c) := by
    unfold lowU
    calc min (openU v z i c) (closeU v t z i c) * (1 - rangeU v z i)
        ≤ min (openU v z i c) (closeU v t z i c) * 1 := by
          apply mul_le_mul_of_nonneg_left _ hminpos
          linarith
      _ = min (openU v z i c) (closeU v t z i c) := mul_one _
  have hhigh : max (openU v z i c) (closeU v t z i c) ≤ highU v t z i c := by
    unfold highU
    exact le_mul_of_one_le_right hmaxpos (by linarith)
  refine ⟨⟨?_, ?_, ?_, ?_⟩, hclose⟩ <;> simp only [mkBar] <;>
    apply round2_mono
  · exact le_trans hlow (min_le_left _ _)
  · exact le_trans (le_max_left _ _) hhigh
  · exact le_trans hlow (min_le_right _ _)
  · exact le_trans (le_max_right _ _) hhigh

/-- Witness for C1's amended theorem: one bar, default volatility and
drift, all-zero draws. -/
theorem generate_ordering_of_nonneg_draws_witness :
    (mkBar (2/100) (1/10000) zZero 0 100).Low ≤
      (mkBar (2/100) (1/10000) zZero 0 100).Open ∧
    (mkBar (2/100) (1/10000) zZero 0 100).Open ≤
      (mkBar (2/100) (1/10000) zZero 0 100).High ∧
    (mkBar (2/100) (1/10000) zZero 0 100).Low ≤
      (mkBar (2/100) (1/10000) zZero 0 100).Close ∧
    (mkBar (2/100) (1/10000) zZero 0 100).Close ≤
      (mkBar (2/100) (1/10000) zZero 0 100).High :=
  generate_ordering_of_nonneg_draws 1 100 (2/100) (1/10000) zZero
    (by norm_num)
    (fun i => by simp [gauss, zZero])
    (fun i => by simp [gauss, zZero]; norm_num)
    _ (by decide)

/-! ## Claim C4: positivity of the price fields -/

/-- C4 (counterexample): with a positive start price (100) and
non-negative volatility (5), a range draw of `2/5` standard deviations
makes the intraday range exactly 1, so the low factor is `1 - 1 = 0` and
the emitted low is `0`, which is not positive. -/
theorem generate_positive_cex :
    (¬ ∀ b ∈ generate_ohlcv 1 100 5 0 zRangeOne,
      0 < b.Open ∧ 0 < b.Close ∧ 0 < b.High ∧ 0 < b.Low) ∧
    (generate_ohlcv 1 100 5 0 zRangeOne).map Bar.Low = [0] := by
  decide

/-- C4 (amended): given a positive start price, the unrounded open, close,
high and low of every iteration are positive provided every open-gap noise
and every daily return is strictly greater than `-1` and every intraday
range draw is strictly less than 1 in absolute value; the carried price
then stays positive, and the emitted (rounded) price fields are
non-negative. Outside those bounds positivity fails: a range draw of
magnitude ≥ 1 sends the low to zero or below, and a gap draw ≤ -1 sends
open and close non-positive. -/
theorem generate_positive_of_moderate_draws (n : ℤ) (sp v t : ℚ)
    (z : ℕ → ℚ) (hsp : 0 < sp)
    (hgap : ∀ i, -1 < gauss 0 (v * (2/10)) (z (4 * i + 1)))
    (hret : ∀ i, -1 < gauss t v (z (4 * i)))
    (hrange : ∀ i, rangeU v z i < 1) :
    (∀ k, 0 < priceAt sp v t z k ∧
      0 < openU v z k (priceAt sp v t z k) ∧
      0 < closeU v t z k (priceAt sp v t z k) ∧
      0 < highU v t z k (priceAt sp v t z k) ∧
      0 < lowU v t z k (priceAt sp v t z k)) ∧
    ∀ b ∈ generate_ohlcv n sp v t z,
      0 ≤ b.Open ∧ 0 ≤ b.Close ∧ 0 ≤ b.High ∧ 0 ≤ b.Low := by
  have hOpen : ∀ k (c : ℚ), 0 < c → 0 < openU v z k c := fun k c hc =>
    mul_pos hc (by linarith [hgap k])
  have hClose : ∀ k (c : ℚ), 0 < c → 0 < closeU v t z k c := fun k c hc =>
    mul_pos (hOpen k c hc) (by linarith [hret k])
  have hHigh : ∀ k (c : ℚ), 0 < c → 0 < highU v t z k c := by
    intro k c hc
    have h0 : 0 ≤ rangeU v z k := abs_nonneg _
    exact mul_pos (lt_of_lt_of_le (hOpen k c hc) (le_max_left _ _))
      (by linarith)
  have hLow : ∀ k (c : ℚ), 0 < c → 0 < lowU v t z k c := by
    intro k c hc
    exact mul_pos (lt_min (hOpen k c hc) (hClose k c hc))
      (by linarith [hrange k])
  have hP : ∀ k, 0 < priceAt sp v t z k := by
    intro k
    induction k with
    | zero => exact hsp
    | succ m ih =>
      rw [priceAt_succ]
      exact hClose m _ ih
  refine ⟨fun k => ⟨hP k, hOpen k _ (hP k), hClose k _ (hP k),
    hHigh k _ (hP k), hLow k _ (hP k)⟩, ?_⟩
  refine genAux_forall v t z _ (fun c => 0 < c) ?_ n.toNat 0 sp hsp
  intro i c hc
  refine ⟨⟨?_, ?_, ?_, ?_⟩, hClose i c hc⟩ <;> simp only [mkBar] <;>
    apply round2_nonneg
  · exact le_of_lt (hOpen i c hc)
  · exact le_of_lt (hClose i c hc)
  · exact le_of_lt (hHigh i c hc)
  · exact le_of_lt (hLow i c hc)

/-- Witness for C4's amended theorem: one bar, default volatility and
drift, all-zero draws; the iteration-0 unrounded prices are positive. -/
theorem generate_positive_of_moderate_draws_witness :
    0 < priceAt 100 (2/100) (1/10000) zZero 0 ∧
    0 < openU (2/100) zZero 0 (priceAt 100 (2/100) (1/10000) zZero 0) ∧
    0 < closeU (2/100) (1/10000) zZero 0
      (priceAt 100 (2/100) (1/10000) zZero 0) ∧
    0 < highU (2/100) (1/10000) zZero 0
      (priceAt 100 (2/100) (1/10000) zZero 0) ∧
    0 < lowU (2/100) (1/10000) zZero 0
      (priceAt 100 (2/100) (1/10000) zZero 0) :=
  (generate_positive_of_moderate_draws 1 100 (2/100) (1/10000) zZero
    (by norm_num)
    (fun i => by simp [gauss, zZero])
    (fun i => by simp [gauss, zZero]; norm_num)
    (fun i => by simp [rangeU, gauss, zZero])).1 0

/-! ## Claim C3: the carried state between iterations -/

/-- C3 (counterexample): with volatility 1 and a daily-return draw of
`1/100000`, the unrounded close of bar 0 is `100.001`; the emitted
(rounded) close is `100`, but the price carried into iteration 1 is the
unrounded `100.001`, so the carried state is not the rounded close. -/
theorem generate_carried_state_cex :
    (¬ ((generate_ohlcv 2 100 1 0 zTinyReturn)[0]?).map Bar.Close =
      some (priceAt 100 1 0 zTinyReturn 1)) ∧
    priceAt 100 1 0 zTinyReturn 1 = 100001/1000 ∧
    ((generate_ohlcv 2 100 1 0 zTinyReturn)[0]?).map Bar.Close =
      some 100 := by
  decide

/-- C3 (amended): the state carried between iterations is the *unrounded*
close: after emitting bar `k`, the carried price equals the unrounded
close of iteration `k` (so the next day's gap is computed off the
unrounded close), and the emitted close field of bar `k` is the 2-decimal
rounding of that carried price. -/
theorem generate_carried_unrounded_close (n : ℤ) (sp v t : ℚ) (z : ℕ → ℚ)
    (k : ℕ) (hk : k < n.toNat) :
    priceAt sp v t z (k + 1) = closeU v t z k (priceAt sp v t z k) ∧
    ((generate_ohlcv n sp v t z)[k]?).map Bar.Close =
      some (round2 (priceAt sp v t z (k + 1))) := by
  have h1 : priceAt sp v t z (k + 1) =
      closeU v t z k (priceAt sp v t z k) := by
    rw [priceAt_succ]; rfl
  refine ⟨h1, ?_⟩
  unfold generate_ohlcv
  rw [genAux_getElem? v t z n.toNat k 0 sp hk, h1]
  simp [mkBar, priceAt]

/-- Witness for C3's amended theorem at a concrete one-bar run. -/
theorem generate_carried_unrounded_close_witness :
    priceAt 100 1 0 zTinyReturn 1 =
      closeU 1 0 zTinyReturn 0 (priceAt 100 1 0 zTinyReturn 0) ∧
    ((generate_ohlcv 1 100 1 0 zTinyReturn)[0]?).map Bar.Close =
      some (round2 (priceAt 100 1 0 zTinyReturn 1)) :=
  generate_carried_unrounded_close 1 100 1 0 zTinyReturn 0 (by decide)

/-! ## Claim C9: determinism -/

/-- The loop's output depends only on the draws it consumes. -/
theorem genAux_congr (v t : ℚ) (z1 z2 : ℕ → ℚ) :
    ∀ (fuel i : ℕ) (c : ℚ),
      (∀ k, 4 * i ≤ k → k < 4 * (i + fuel) → z1 k = z2 k) →
      genAux v t z1 fuel i c = genAux v t z2 fuel i c := by
  intro fuel
  induction fuel with
  | zero => intro i c _; rfl
  | succ m ih =>
    intro i c h
    have h0 := h (4 * i) (by omega) (by omega)
    have h1 := h (4 * i + 1) (by omega) (by omega)
    have h2 := h (4 * i + 2) (by omega) (by omega)
    have h3 := h (4 * i + 3) (by omega) (by omega)
    have hbar : mkBar v t z1 i c = mkBar v t z2 i c := by
      simp [mkBar, openU, closeU, rangeU, highU, lowU, gauss, h0, h1, h2, h3]
    have hnext : nextPrice v t z1 i c = nextPrice v t z2 i c := by
      simp [nextPrice, closeU, openU, gauss, h0, h1]
    simp only [genAux]
    rw [hbar, hnext]
    exact congrArg (mkBar v t z2 i c :: ·)
      (ih (i + 1) (nextPrice v t z2 i c)
        (fun k hk1 hk2 => h k (by omega) (by omega)))

/-- C9: generation is deterministic and side-effect free — the output is a
function of the parameters and the initial random state alone: two
invocations with identical parameters whose draw streams agree on the
`4 * n` consumed draws produce identical (bit-identical) bar sequences. -/
theorem generate_deterministic (n : ℤ) (sp v t : ℚ) (z1 z2 : ℕ → ℚ)
    (h : ∀ k, k < 4 * n.toNat → z1 k = z2 k) :
    generate_ohlcv n sp v t z1 = generate_ohlcv n sp v t z2 := by
  unfold generate_ohlcv
  exact genAux_congr v t z1 z2 n.toNat 0 sp
    (fun k hk1 hk2 => h k (by omega))

/-- Witness for C9: two draw streams that agree on the four draws a
one-bar run consumes (and differ afterwards) give identical output. -/
theorem generate_deterministic_witness :
    generate_ohlcv 1 100 (2/100) (1/10000) zZero =
      generate_ohlcv 1 100 (2/100) (1/10000) zZeroThenOne :=
  generate_deterministic 1 100 (2/100) (1/10000) zZero zZeroThenOne
    (by decide)

/-! ## Claim C6: the zero-volatility end-to-end example -/

theorem openU_zero_vol (z : ℕ → ℚ) (i : ℕ) (c : ℚ) : openU 0 z i c = c := by
  simp [openU, gauss]

theorem closeU_zero_vol (z : ℕ → ℚ) (i : ℕ) (c : ℚ) :
    closeU 0 0 z i c = c := by
  simp [closeU, openU_zero_vol, gauss]

theorem rangeU_zero_vol (z : ℕ → ℚ) (i : ℕ) : rangeU 0 z i = 0 := by
  simp [rangeU, gauss]

theorem highU_zero_vol (z : ℕ → ℚ) (i : ℕ) (c : ℚ) : highU 0 0 z i c = c := by
  simp [highU, openU_zero_vol, closeU_zero_vol, rangeU_zero_vol]

theorem lowU_zero_vol (z : ℕ → ℚ) (i : ℕ) (c : ℚ) : lowU 0 0 z i c = c := by
  simp [lowU, openU_zero_vol, closeU_zero_vol, rangeU_zero_vol]

theorem round2_hundred : round2 100 = 100 := by decide

theorem genAux_succ_eq (v t : ℚ) (z : ℕ → ℚ) (fuel i : ℕ) (c : ℚ) :
    genAux v t z (fuel + 1) i c =
      mkBar v t z i c ::
        genAux v t z fuel (i + 1) (nextPrice v t z i c) := rfl

/-- C6: a run with `row_count = 3`, `start_price = 100`, `volatility = 0`
and `drift = 0` — whatever the draws — produces exactly three bars, each
with open = high = low = close = adjusted close = 100.00, dated
2020-01-01, 2020-01-02 and 2020-01-03, whose volume is the
`Normal(1000000, 200000)` draw of that day truncated to an integer and
floored at 100000. -/
theorem generate_zero_volatility_example (z : ℕ → ℚ) :
    generate_ohlcv 3 100 0 0 z =
      [ { Date := "2020-01-01", Open := 100, High := 100, Low := 100,
          Close := 100, AdjClose := 100,
          Volume := max (truncInt (gauss 1000000 200000 (z 3))) 100000 },
        { Date := "2020-01-02", Open := 100, High := 100, Low := 100,
          Close := 100, AdjClose := 100,
          Volume := max (truncInt (gauss 1000000 200000 (z 7))) 100000 },
        { Date := "2020-01-03", Open := 100, High := 100, Low := 100,
          Close := 100, AdjClose := 100,
          Volume := max (truncInt (gauss 1000000 200000 (z 11))) 100000 } ]
    := by
  have hd0 : dateStr (addDays startDate2020 0) = "2020-01-01" := by decide
  have hd1 : dateStr (addDays startDate2020 1) = "2020-01-02" := by decide
  have hd2 : dateStr (addDays startDate2020 2) = "2020-01-03" := by decide
  show genAux 0 0 z 3 0 100 = _
  rw [show (3 : ℕ) = 2 + 1 from rfl, genAux_succ_eq,
    show (2 : ℕ) = 1 + 1 from rfl, genAux_succ_eq,
    show (1 : ℕ) = 0 + 1 from rfl, genAux_succ_eq]
  simp only [nextPrice, closeU_zero_vol]
  simp [genAux, mkBar, openU_zero_vol, closeU_zero_vol, highU_zero_vol,
    lowU_zero_vol, round2_hundred, hd0, hd1, hd2]
